import Mathlib

/-!
Shallow embedding of the S3 cross-account transfer tool (`main.go`).

The embedding models the post-startup core of the program: the object
lister (`listKeys`), the two-tier transfer strategy (`moveObject` with
`moveObjectFallback`), the worker loop (`worker`, modelled per completed
job as `workerStep`, with a whole run as a fold over the job list — every
mutation of the shared `TransferStats` in the Go code is guarded by one
mutex, so the totals of a completed run coincide with those of a
sequential interleaving), the audit sink (`logToDB`), and the derived
report numbers of `writeSummaryLog` (`computeReport`, over ℚ).

External effects are modelled by an `ObjectWorld` per key describing how
the storage service answers each call for that key, and a Boolean per
key describing whether the audit-sink append succeeds.
-/

namespace S3Transfer

/-- The Go `TransferStats` accumulator (times are modelled separately:
the report takes the elapsed duration in seconds as a rational). -/
structure TransferStats where
  TotalFiles : Int
  SuccessCount : Int
  ErrorCount : Int
  TotalSizeBytes : Int
  Method : List (String × Int)
deriving DecidableEq, Repr

/-- `stats.Method[name]++` on the Go map, as an association list update:
insert with count 1 when absent, otherwise increment in place. -/
def mapIncr (m : List (String × Int)) (k : String) : List (String × Int) :=
  match m with
  | [] => [(k, 1)]
  | (k', v) :: rest => if k' = k then (k', v + 1) :: rest else (k', v) :: mapIncr rest k

/-- How the storage service answers each call for one object key:
whether `CopyObject` succeeds, what `HeadObject` returns (`none` = error,
`some n` = a `ContentLength` of `n` bytes), and whether `GetObject` and
`PutObject` succeed. -/
structure ObjectWorld where
  copyOk : Bool
  headResult : Option Int
  getOk : Bool
  putOk : Bool
deriving DecidableEq, Repr

/-- The storage calls a transfer attempt can issue. -/
inductive S3Call where
  | copy
  | head
  | get
  | put
deriving DecidableEq, Repr

/-- The error values `moveObject` / `moveObjectFallback` can return. -/
inductive TransferError where
  | headErr
  | tooLarge (size : Int)
  | getErr
  | putErr
deriving DecidableEq, Repr

/-- The `err.Error()` string of each error, after the Go format strings
(the float rendering of the size in GB is elided). -/
def TransferError.message : TransferError → String
  | .headErr => "head object error"
  | .tooLarge n => "file too large (" ++ toString n ++ " bytes) - exceeds 5GB single PUT limit. Please use AWS CLI aws s3 cp for files >5GB"
  | .getErr => "get error"
  | .putErr => "streaming put error"

/-- Result of one transfer attempt: the returned error (if any), the
updated stats, and the trace of storage calls issued. -/
structure MoveResult where
  err : Option TransferError
  stats : TransferStats
  calls : List S3Call
deriving DecidableEq, Repr

/-- The Go `moveObjectFallback`: head the source object, add the reported
size to `TotalSizeBytes`, reject sizes strictly above 5 GiB, otherwise
get the body and put it to the destination, recording the "streaming"
method on success. -/
def moveObjectFallback (w : ObjectWorld) (stats : TransferStats) : MoveResult :=
  match w.headResult with
  | none => { err := some .headErr, stats := stats, calls := [.head] }
  | some fileSize =>
    let stats1 := { stats with TotalSizeBytes := stats.TotalSizeBytes + fileSize }
    if fileSize > 5 * 1024 * 1024 * 1024 then
      { err := some (.tooLarge fileSize), stats := stats1, calls := [.head] }
    else if w.getOk = false then
      { err := some .getErr, stats := stats1, calls := [.head, .get] }
    else if w.putOk = false then
      { err := some .putErr, stats := stats1, calls := [.head, .get, .put] }
    else
      { err := none
        stats := { stats1 with Method := mapIncr stats1.Method "streaming" }
        calls := [.head, .get, .put] }

/-- The Go `moveObject`: attempt the server-side copy; on success record
the "server-side" method, on any failure fall back to
`moveObjectFallback`. -/
def moveObject (w : ObjectWorld) (stats : TransferStats) : MoveResult :=
  if w.copyOk then
    { err := none
      stats := { stats with Method := mapIncr stats.Method "server-side" }
      calls := [.copy] }
  else
    let r := moveObjectFallback w stats
    { r with calls := .copy :: r.calls }

/-- One audit-sink record, as attempted by `logToDB`: the inserted
columns and whether the insert succeeded (a failed insert is only
logged). -/
structure AuditRecord where
  key : String
  status : String
  msg : String
  delivered : Bool
deriving DecidableEq, Repr

/-- The Go `logToDB`: always attempts the insert; `ok` tells whether the
sink accepted it. -/
def logToDB (ok : Bool) (key status msg : String) : AuditRecord :=
  { key := key, status := status, msg := msg, delivered := ok }

/-- The environment of one job: its key, how the storage service behaves
for that key, and whether the audit append for it succeeds. -/
structure JobEnv where
  key : String
  world : ObjectWorld
  auditOk : Bool
deriving DecidableEq, Repr

/-- The shared state a run accumulates: the stats and the sequence of
records pushed to the audit sink. -/
structure RunState where
  stats : TransferStats
  audit : List AuditRecord
deriving DecidableEq, Repr

/-- One iteration of the Go `worker` loop body for one dequeued job:
run `moveObject`, increment exactly one of the success/error counters,
and push one record to the audit sink. -/
def workerStep (st : RunState) (j : JobEnv) : RunState :=
  let r := moveObject j.world st.stats
  match r.err with
  | none =>
    { stats := { r.stats with SuccessCount := r.stats.SuccessCount + 1 }
      audit := st.audit ++ [logToDB j.auditOk j.key "success" "moved"] }
  | some e =>
    { stats := { r.stats with ErrorCount := r.stats.ErrorCount + 1 }
      audit := st.audit ++ [logToDB j.auditOk j.key "error" e.message] }

/-- A completed pool run: every job of the queue processed. All
`TransferStats` mutations in the Go code happen under one mutex, so the
state after a completed run is that of a sequential fold. -/
def runPool (st : RunState) (jobs : List JobEnv) : RunState :=
  jobs.foldl workerStep st

/-- The initial stats `main` builds (zero counters, empty method map),
with `TotalFiles` set from the listed key count. -/
def initStats (tf : Int) : TransferStats :=
  { TotalFiles := tf, SuccessCount := 0, ErrorCount := 0, TotalSizeBytes := 0, Method := [] }

/-- The worker-count heuristic of `main`: 150 workers, dropped to 25 when
fewer than 1000 keys were listed. -/
def workerCountFor (n : Nat) : Nat :=
  if n < 1000 then 25 else 150

/-- One `ListObjectsV2` response page: the keys of its contents and its
`IsTruncated` flag (a Go `*bool`, hence optional). -/
structure ListPage where
  contents : List String
  isTruncated : Option Bool
deriving DecidableEq, Repr

/-- The Go `listKeys` loop over the service's successive responses: a
failed page is fatal; a page truncated (`IsTruncated == some true`)
continues with the next response; otherwise the loop breaks. -/
def listKeys : List (Except String ListPage) → Except String (List String)
  | [] => Except.ok []
  | Except.error e :: _ => Except.error e
  | Except.ok p :: rest =>
    if p.isTruncated.getD false then
      match listKeys rest with
      | Except.error e => Except.error e
      | Except.ok ks => Except.ok (p.contents ++ ks)
    else
      Except.ok p.contents

/-- The derived numbers of `writeSummaryLog`, over ℚ. -/
structure ReportData where
  durationSec : ℚ
  filesPerSecond : ℚ
  mbPerSecond : ℚ
  successRate : ℚ
  methodLines : List (String × Int × ℚ)
  workerCount : Nat
deriving DecidableEq, Repr

/-- The arithmetic of `writeSummaryLog`: throughput guarded by a positive
elapsed duration, success rate guarded by a positive total, and one
percentage line per method map entry, dividing by `SuccessCount`. -/
def computeReport (s : TransferStats) (dur : ℚ) (wc : Nat) : ReportData :=
  { durationSec := dur
    filesPerSecond := if dur > 0 then (s.SuccessCount : ℚ) / dur else 0
    mbPerSecond := if dur > 0 then (s.TotalSizeBytes : ℚ) / (1024 * 1024) / dur else 0
    successRate := if s.TotalFiles > 0 then (s.SuccessCount : ℚ) / (s.TotalFiles : ℚ) * 100 else 0
    methodLines := s.Method.map fun p => (p.1, p.2, (p.2 : ℚ) / (s.SuccessCount : ℚ) * 100)
    workerCount := wc }

/-- The divisor of every division `writeSummaryLog` actually performs on
a given stats value, in order: the two throughput divisions by the
elapsed seconds (plus the constant MB divisor) when the duration is
positive, the success-rate division when the total is positive, the
unconditional MB/GB renderings of `TotalSizeBytes`, and one division by
`SuccessCount` per method map entry. -/
def reportDivisors (s : TransferStats) (dur : ℚ) : List ℚ :=
  (if dur > 0 then [dur, 1024 * 1024, dur] else [])
    ++ (if s.TotalFiles > 0 then [(s.TotalFiles : ℚ)] else [])
    ++ [1024 * 1024, 1024 * 1024 * 1024]
    ++ s.Method.map fun _ => (s.SuccessCount : ℚ)

/-- The result of a run that passed startup: final stats, the audit
trail, the chosen worker count, and the written report. -/
structure MainResult where
  stats : TransferStats
  audit : List AuditRecord
  workerCount : Nat
  report : ReportData
deriving DecidableEq, Repr

/-- The body of `main` after the keys are listed: on zero keys write the
summary immediately and return; otherwise size the pool, run it over
every key, and write the summary from the final stats. -/
def mainWithKeys (keys : List String) (env : String → ObjectWorld)
    (aud : String → Bool) (dur : ℚ) : MainResult :=
  let s0 := initStats keys.length
  if keys.length = 0 then
    { stats := s0, audit := [], workerCount := 0, report := computeReport s0 dur 0 }
  else
    let wc := workerCountFor keys.length
    let fin := runPool { stats := s0, audit := [] }
      (keys.map fun k => { key := k, world := env k, auditOk := aud k })
    { stats := fin.stats, audit := fin.audit, workerCount := wc
      report := computeReport fin.stats dur wc }

/-- `main` from the listing on: a fatal listing failure aborts the run
before any job is scheduled. -/
def mainRun (resps : List (Except String ListPage)) (env : String → ObjectWorld)
    (aud : String → Bool) (dur : ℚ) : Except String MainResult :=
  match listKeys resps with
  | Except.error e => Except.error e
  | Except.ok keys => Except.ok (mainWithKeys keys env aud dur)

/-- Sum of the per-method counts. -/
def methodSum (m : List (String × Int)) : Int :=
  (m.map fun p => p.2).sum

/-- A decidable sufficient-and-necessary condition, on the world alone,
for `moveObject` to return an error. -/
def jobFails (w : ObjectWorld) : Bool :=
  !w.copyOk &&
    (match w.headResult with
     | none => true
     | some n => decide (n > 5 * 1024 * 1024 * 1024) || !w.getOk || !w.putOk)

/-- An audit record without its delivery flag: the columns `logToDB`
inserts. -/
def stripDelivered (r : AuditRecord) : String × String × String :=
  (r.key, r.status, r.msg)

/-- The stats invariant maintained between jobs: the per-method counts
are positive and sum to the success count. -/
def statsInv (s : TransferStats) : Prop :=
  methodSum s.Method = s.SuccessCount ∧ ∀ p ∈ s.Method, 0 < p.2

lemma moveObjectFallback_counts (w : ObjectWorld) (s : TransferStats) :
    (moveObjectFallback w s).stats.SuccessCount = s.SuccessCount
    ∧ (moveObjectFallback w s).stats.ErrorCount = s.ErrorCount
    ∧ (moveObjectFallback w s).stats.TotalFiles = s.TotalFiles := by
  cases hw : w.headResult <;> simp only [moveObjectFallback, hw] <;> (repeat' split) <;> simp

lemma moveObject_counts (w : ObjectWorld) (s : TransferStats) :
    (moveObject w s).stats.SuccessCount = s.SuccessCount
    ∧ (moveObject w s).stats.ErrorCount = s.ErrorCount
    ∧ (moveObject w s).stats.TotalFiles = s.TotalFiles := by
  cases hc : w.copyOk
  · simpa [moveObject, hc] using moveObjectFallback_counts w s
  · simp [moveObject, hc]

lemma methodSum_mapIncr (m : List (String × Int)) (k : String) :
    methodSum (mapIncr m k) = methodSum m + 1 := by
  induction m with
  | nil => simp [mapIncr, methodSum]
  | cons a t ih =>
    obtain ⟨k', v⟩ := a
    by_cases h : k' = k <;> simp [mapIncr, h, methodSum] at ih ⊢ <;> omega

lemma mapIncr_pos (m : List (String × Int)) (k : String)
    (h : ∀ p ∈ m, 0 < p.2) : ∀ p ∈ mapIncr m k, 0 < p.2 := by
  induction m with
  | nil => simp [mapIncr]
  | cons a t ih =>
    obtain ⟨k', v⟩ := a
    by_cases hk : k' = k
    · simp only [mapIncr, if_pos hk]
      intro p hp
      rcases List.mem_cons.mp hp with rfl | hp
      · have := h (k', v) (by simp)
        simpa using by omega
      · exact h p (by simp [hp])
    · simp only [mapIncr, if_neg hk]
      intro p hp
      rcases List.mem_cons.mp hp with rfl | hp
      · exact h (k', v) (by simp)
      · exact ih (fun q hq => h q (by simp [hq])) p hp

lemma methodSum_nonneg (m : List (String × Int)) (h : ∀ p ∈ m, 0 < p.2) :
    0 ≤ methodSum m := by
  induction m with
  | nil => simp [methodSum]
  | cons a t ih =>
    have ha := h a (by simp)
    have ht := ih (fun q hq => h q (by simp [hq]))
    simp only [methodSum, List.map_cons, List.sum_cons] at ht ⊢
    omega

lemma methodSum_pos (m : List (String × Int)) (h : ∀ p ∈ m, 0 < p.2)
    (hne : m ≠ []) : 0 < methodSum m := by
  cases m with
  | nil => exact absurd rfl hne
  | cons a t =>
    have ha := h a (by simp)
    have ht := methodSum_nonneg t (fun q hq => h q (by simp [hq]))
    simp only [methodSum, List.map_cons, List.sum_cons] at ht ⊢
    omega

lemma moveObjectFallback_method (w : ObjectWorld) (s : TransferStats) :
    ((moveObjectFallback w s).err = none
      ∧ (moveObjectFallback w s).stats.Method = mapIncr s.Method "streaming")
    ∨ ((moveObjectFallback w s).err ≠ none
      ∧ (moveObjectFallback w s).stats.Method = s.Method) := by
  cases hw : w.headResult
  · right; simp [moveObjectFallback, hw]
  · simp only [moveObjectFallback, hw]
    split
    · right; simp
    · split
      · right; simp
      · split
        · right; simp
        · left; simp

lemma moveObject_method (w : ObjectWorld) (s : TransferStats) :
    ((moveObject w s).err = none
      ∧ ∃ name, (moveObject w s).stats.Method = mapIncr s.Method name)
    ∨ ((moveObject w s).err ≠ none ∧ (moveObject w s).stats.Method = s.Method) := by
  cases hc : w.copyOk
  · rcases moveObjectFallback_method w s with ⟨h1, h2⟩ | ⟨h1, h2⟩
    · exact Or.inl ⟨by simp [moveObject, hc, h1], "streaming", by simp [moveObject, hc, h2]⟩
    · exact Or.inr ⟨by simp [moveObject, hc]; exact h1, by simp [moveObject, hc, h2]⟩
  · exact Or.inl ⟨by simp [moveObject, hc], "server-side", by simp [moveObject, hc]⟩

lemma workerStep_counts (st : RunState) (j : JobEnv) :
    (workerStep st j).stats.SuccessCount + (workerStep st j).stats.ErrorCount
      = st.stats.SuccessCount + st.stats.ErrorCount + 1
    ∧ (workerStep st j).audit.length = st.audit.length + 1
    ∧ (workerStep st j).stats.TotalFiles = st.stats.TotalFiles := by
  obtain ⟨h1, h2, h3⟩ := moveObject_counts j.world st.stats
  cases he : (moveObject j.world st.stats).err <;>
    simp [workerStep, he, h1, h2, h3] <;> omega

lemma workerStep_exactly_one (st : RunState) (j : JobEnv) :
    ((workerStep st j).stats.SuccessCount = st.stats.SuccessCount + 1
      ∧ (workerStep st j).stats.ErrorCount = st.stats.ErrorCount)
    ∨ ((workerStep st j).stats.SuccessCount = st.stats.SuccessCount
      ∧ (workerStep st j).stats.ErrorCount = st.stats.ErrorCount + 1) := by
  obtain ⟨h1, h2, _⟩ := moveObject_counts j.world st.stats
  cases he : (moveObject j.world st.stats).err
  · exact Or.inl (by simp [workerStep, he, h1, h2])
  · exact Or.inr (by simp [workerStep, he, h1, h2])

lemma runPool_counts (jobs : List JobEnv) : ∀ st : RunState,
    (runPool st jobs).stats.SuccessCount + (runPool st jobs).stats.ErrorCount
      = st.stats.SuccessCount + st.stats.ErrorCount + jobs.length
    ∧ (runPool st jobs).audit.length = st.audit.length + jobs.length := by
  induction jobs with
  | nil => intro st; simp [runPool]
  | cons j rest ih =>
    intro st
    obtain ⟨h1, h2, _⟩ := workerStep_counts st j
    obtain ⟨ih1, ih2⟩ := ih (workerStep st j)
    simp only [runPool, List.foldl_cons, List.length_cons] at ih1 ih2 ⊢
    constructor <;> omega

lemma workerStep_inv (st : RunState) (j : JobEnv) (h : statsInv st.stats) :
    statsInv (workerStep st j).stats := by
  obtain ⟨hsum, hpos⟩ := h
  obtain ⟨hS, hE, _⟩ := moveObject_counts j.world st.stats
  rcases moveObject_method j.world st.stats with ⟨he, name, hm⟩ | ⟨he, hm⟩
  · refine ⟨?_, ?_⟩ <;> simp only [workerStep, he]
    · simp [hm, methodSum_mapIncr, hsum, hS]
    · simpa [hm] using mapIncr_pos st.stats.Method name hpos
  · cases hee : (moveObject j.world st.stats).err
    · exact absurd hee he
    · refine ⟨?_, ?_⟩ <;> simp only [workerStep, hee]
      · simp [hm, hsum, hS]
      · simpa [hm] using hpos

lemma runPool_inv (jobs : List JobEnv) : ∀ st : RunState,
    statsInv st.stats → statsInv (runPool st jobs).stats := by
  induction jobs with
  | nil => intro st h; simpa [runPool] using h
  | cons j rest ih =>
    intro st h
    simpa only [runPool, List.foldl_cons] using
      ih (workerStep st j) (workerStep_inv st j h)

lemma initStats_inv (tf : Int) : statsInv (initStats tf) := by
  constructor <;> simp [initStats, methodSum]

lemma moveObject_err_of_jobFails (w : ObjectWorld) (s : TransferStats)
    (h : jobFails w = true) : (moveObject w s).err ≠ none := by
  cases hc : w.copyOk
  · cases hw : w.headResult
    · simp [moveObject, moveObjectFallback, hc, hw]
    · simp only [jobFails, hc, hw, Bool.not_false, Bool.true_and] at h
      simp only [moveObject, hc, Bool.false_eq_true, if_false, moveObjectFallback, hw]
      repeat' split
      all_goals simp_all
  · simp [jobFails, hc] at h

lemma runPool_all_fail (jobs : List JobEnv) : ∀ st : RunState,
    (∀ j ∈ jobs, jobFails j.world = true) →
    (runPool st jobs).stats.SuccessCount = st.stats.SuccessCount
    ∧ (runPool st jobs).stats.ErrorCount = st.stats.ErrorCount + jobs.length := by
  induction jobs with
  | nil => intro st _; simp [runPool]
  | cons j rest ih =>
    intro st hall
    have hj := moveObject_err_of_jobFails j.world st.stats (hall j (by simp))
    obtain ⟨h1, h2, _⟩ := moveObject_counts j.world st.stats
    have hstep : (workerStep st j).stats.SuccessCount = st.stats.SuccessCount
        ∧ (workerStep st j).stats.ErrorCount = st.stats.ErrorCount + 1 := by
      cases he : (moveObject j.world st.stats).err
      · exact absurd he hj
      · simp [workerStep, he, h1, h2]
    obtain ⟨ih1, ih2⟩ := ih (workerStep st j) (fun j' hj' => hall j' (by simp [hj']))
    simp only [runPool, List.foldl_cons, List.length_cons] at ih1 ih2 ⊢
    constructor <;> omega

lemma listKeys_cons_trunc (p : ListPage) (rest : List (Except String ListPage))
    (hp : p.isTruncated = some true) :
    listKeys (Except.ok p :: rest)
      = match listKeys rest with
        | Except.error e => Except.error e
        | Except.ok ks => Except.ok (p.contents ++ ks) := by
  simp only [listKeys, hp, Option.getD_some, if_true]

lemma listKeys_cons_break (p : ListPage) (rest : List (Except String ListPage))
    (hp : p.isTruncated ≠ some true) :
    listKeys (Except.ok p :: rest) = Except.ok p.contents := by
  have hgd : p.isTruncated.getD false = false := by
    cases ht : p.isTruncated with
    | none => rfl
    | some b =>
      cases b with
      | false => rfl
      | true => exact absurd ht hp
  simp only [listKeys, hgd, Bool.false_eq_true, if_false]

lemma listKeys_ok_pages : ∀ pages : List ListPage, pages ≠ [] →
    (∀ p ∈ pages.dropLast, p.isTruncated = some true) →
    (∀ p, pages.getLast? = some p → p.isTruncated ≠ some true) →
    listKeys (pages.map Except.ok) = Except.ok (pages.map ListPage.contents).flatten := by
  intro pages
  induction pages with
  | nil => intro h; exact absurd rfl h
  | cons a rest ih =>
    intro _ hdrop hlast
    cases rest with
    | nil =>
      have ha : a.isTruncated ≠ some true := hlast a (by simp)
      simp [listKeys_cons_break a _ ha]
    | cons b rest' =>
      have ha : a.isTruncated = some true := hdrop a (by simp [List.dropLast_cons₂])
      have ih' := ih (by simp)
        (fun p hp => hdrop p (by
          simp only [List.dropLast_cons₂, List.mem_cons]
          exact Or.inr hp))
        (fun p hp => hlast p (by rw [List.getLast?_cons_cons]; exact hp))
      rw [List.map_cons, listKeys_cons_trunc a _ ha, ih']
      simp

lemma listKeys_error_after (pre : List ListPage) (e : String)
    (rest : List (Except String ListPage))
    (h : ∀ p ∈ pre, p.isTruncated = some true) :
    listKeys (pre.map Except.ok ++ Except.error e :: rest) = Except.error e := by
  induction pre with
  | nil => simp [listKeys]
  | cons a t ih =>
    have ha : a.isTruncated = some true := h a (by simp)
    have ih' := ih (fun p hp => h p (by simp [hp]))
    simp [listKeys, ha, ih']

lemma workerStep_stats_world_only (st st' : RunState) (j j' : JobEnv)
    (hs : st.stats = st'.stats) (hw : j.world = j'.world) :
    (workerStep st j).stats = (workerStep st' j').stats := by
  have hmv : moveObject j'.world st'.stats = moveObject j.world st.stats := by
    rw [hs, hw]
  cases he : (moveObject j.world st.stats).err <;>
    simp [workerStep, he, hmv]

lemma runPool_stats_map_world (jobs : List JobEnv) (f : JobEnv → JobEnv)
    (hf : ∀ j, (f j).world = j.world) : ∀ st st' : RunState, st.stats = st'.stats →
    (runPool st (jobs.map f)).stats = (runPool st' jobs).stats := by
  induction jobs with
  | nil => intro st st' h; simpa [runPool] using h
  | cons j rest ih =>
    intro st st' h
    simpa only [runPool, List.map_cons, List.foldl_cons] using
      ih (workerStep st (f j)) (workerStep st' j)
        (workerStep_stats_world_only st st' (f j) j h (hf j))

/-- C1: for every completed run, success count plus error count equals the
number of jobs dequeued, which also equals the number of outcome records
pushed to the audit sink; and each completed job increments exactly one of
the two counters — never both, never neither. -/
theorem c1_counters_balance (tf : Int) (jobs : List JobEnv) :
    ((runPool { stats := initStats tf, audit := [] } jobs).stats.SuccessCount
        + (runPool { stats := initStats tf, audit := [] } jobs).stats.ErrorCount
      = (jobs.length : Int))
    ∧ (runPool { stats := initStats tf, audit := [] } jobs).audit.length = jobs.length
    ∧ ∀ (st : RunState) (j : JobEnv),
        ((workerStep st j).stats.SuccessCount = st.stats.SuccessCount + 1
          ∧ (workerStep st j).stats.ErrorCount = st.stats.ErrorCount)
        ∨ ((workerStep st j).stats.SuccessCount = st.stats.SuccessCount
          ∧ (workerStep st j).stats.ErrorCount = st.stats.ErrorCount + 1) := by
  obtain ⟨h1, h2⟩ := runPool_counts jobs { stats := initStats tf, audit := [] }
  refine ⟨?_, ?_, fun st j => workerStep_exactly_one st j⟩
  · simpa [initStats] using h1
  · simpa using h2

/-- C2: in the streaming fallback, an object whose reported length strictly
exceeds 5 GiB fails with the "too large" error carrying the object's actual
size, whose message names the size and the 5GB limit, and neither the body
read nor the upload is attempted; an object of exactly 5 GiB is not
rejected by this check. -/
theorem c2_oversize_rejected (w : ObjectWorld) (s : TransferStats) (size : Int)
    (hh : w.headResult = some size) :
    (size > 5 * 1024 * 1024 * 1024 →
      (moveObjectFallback w s).err = some (.tooLarge size)
      ∧ S3Call.get ∉ (moveObjectFallback w s).calls
      ∧ S3Call.put ∉ (moveObjectFallback w s).calls
      ∧ TransferError.message (.tooLarge size)
          = "file too large (" ++ toString size
            ++ " bytes) - exceeds 5GB single PUT limit. Please use AWS CLI aws s3 cp for files >5GB")
    ∧ (size = 5 * 1024 * 1024 * 1024 →
      ∀ n : Int, (moveObjectFallback w s).err ≠ some (.tooLarge n)) := by
  constructor
  · intro hgt
    simp only [moveObjectFallback, hh]
    rw [if_pos hgt]
    exact ⟨rfl, by simp, by simp, rfl⟩
  · intro heq n
    subst heq
    simp only [moveObjectFallback, hh]
    rw [if_neg (by omega)]
    split
    · simp
    · split <;> simp

/-- Witness for C2 at a size of 5 GiB plus one byte: the fallback rejects
it without issuing a get or a put. -/
theorem c2_oversize_rejected_witness :
    (moveObjectFallback
        { copyOk := false, headResult := some 5368709121, getOk := true, putOk := true }
        (initStats 1)).err = some (.tooLarge 5368709121)
    ∧ S3Call.get ∉ (moveObjectFallback
        { copyOk := false, headResult := some 5368709121, getOk := true, putOk := true }
        (initStats 1)).calls
    ∧ S3Call.put ∉ (moveObjectFallback
        { copyOk := false, headResult := some 5368709121, getOk := true, putOk := true }
        (initStats 1)).calls := by
  have h := (c2_oversize_rejected
    { copyOk := false, headResult := some 5368709121, getOk := true, putOk := true }
    (initStats 1) 5368709121 rfl).1 (by norm_num)
  exact ⟨h.1, h.2.1, h.2.2.1⟩

/-- C3 (code evaluation at the failing input): in the three-object
scenario — A direct-copies, B reports 10 GiB and falls back, C reports
10 MiB and streams — the code records B's 10 GiB into `TotalSizeBytes`
before the oversize rejection, so the final byte total is
10 GiB + 10 MiB, not C's 10 MiB alone as the claim states. -/
theorem c3_oversize_inflates_total_bytes :
    ((runPool { stats := initStats 3, audit := [] }
        [ { key := "A"
            world := { copyOk := true, headResult := none, getOk := true, putOk := true }
            auditOk := true }
        , { key := "B"
            world := { copyOk := false, headResult := some 10737418240, getOk := true, putOk := true }
            auditOk := true }
        , { key := "C"
            world := { copyOk := false, headResult := some 10485760, getOk := true, putOk := true }
            auditOk := true } ]).stats.TotalSizeBytes
      = 10737418240 + 10485760)
    ∧ ((runPool { stats := initStats 3, audit := [] }
        [ { key := "A"
            world := { copyOk := true, headResult := none, getOk := true, putOk := true }
            auditOk := true }
        , { key := "B"
            world := { copyOk := false, headResult := some 10737418240, getOk := true, putOk := true }
            auditOk := true }
        , { key := "C"
            world := { copyOk := false, headResult := some 10485760, getOk := true, putOk := true }
            auditOk := true } ]).stats
      = { TotalFiles := 3, SuccessCount := 2, ErrorCount := 1
          TotalSizeBytes := 10737418240 + 10485760
          Method := [("server-side", 1), ("streaming", 1)] })
    ∧ (10737418240 + 10485760 : Int) ≠ 10485760 := by
  refine ⟨rfl, ?_, by norm_num⟩
  rfl

/-- C4: when the direct server-side copy fails, `moveObject`
unconditionally delegates to the streaming fallback: its error and its
stats update are exactly those of the fallback (so a direct-copy failure
alone never surfaces as a job failure), and the only extra call is the
failed copy itself. -/
theorem c4_unconditional_fallback (w : ObjectWorld) (s : TransferStats)
    (h : w.copyOk = false) :
    (moveObject w s).err = (moveObjectFallback w s).err
    ∧ (moveObject w s).stats = (moveObjectFallback w s).stats
    ∧ (moveObject w s).calls = S3Call.copy :: (moveObjectFallback w s).calls := by
  simp [moveObject, h]

/-- Witness for C4: a copy-refusing world whose fallback streams
successfully, so the job succeeds. -/
theorem c4_unconditional_fallback_witness :
    (moveObject { copyOk := false, headResult := some 10, getOk := true, putOk := true }
        (initStats 1)).err
      = (moveObjectFallback { copyOk := false, headResult := some 10, getOk := true, putOk := true }
          (initStats 1)).err
    ∧ (moveObject { copyOk := false, headResult := some 10, getOk := true, putOk := true }
        (initStats 1)).stats
      = (moveObjectFallback { copyOk := false, headResult := some 10, getOk := true, putOk := true }
          (initStats 1)).stats
    ∧ (moveObject { copyOk := false, headResult := some 10, getOk := true, putOk := true }
        (initStats 1)).calls
      = S3Call.copy :: (moveObjectFallback
          { copyOk := false, headResult := some 10, getOk := true, putOk := true }
          (initStats 1)).calls :=
  c4_unconditional_fallback
    { copyOk := false, headResult := some 10, getOk := true, putOk := true }
    (initStats 1) rfl

/-- C5: the worker-pool size is a pure function of the total key count,
computed before any job runs: exactly 999 keys yields the small count of
25 workers and exactly 1000 keys the large count of 150. -/
theorem c5_pool_size_boundary (keys : List String) (env : String → ObjectWorld)
    (aud : String → Bool) (dur : ℚ) (h : keys ≠ []) :
    (mainWithKeys keys env aud dur).workerCount = workerCountFor keys.length
    ∧ workerCountFor 999 = 25 ∧ workerCountFor 1000 = 150 := by
  have h0 : ¬keys.length = 0 := by simpa [List.length_eq_zero] using h
  exact ⟨by simp [mainWithKeys, h0], rfl, rfl⟩

/-- Witness for C5 on a one-key run. -/
theorem c5_pool_size_boundary_witness :
    (mainWithKeys ["k"]
        (fun _ => { copyOk := true, headResult := none, getOk := true, putOk := true })
        (fun _ => true) 1).workerCount = workerCountFor (["k"] : List String).length
    ∧ workerCountFor 999 = 25 ∧ workerCountFor 1000 = 150 :=
  c5_pool_size_boundary ["k"]
    (fun _ => { copyOk := true, headResult := none, getOk := true, putOk := true })
    (fun _ => true) 1 (by simp)

/-- C6 counterexample: the per-method percentage of `writeSummaryLog` is
not zero-guarded against zero successes — on a stats value with a
non-empty method map and a zero success count the computation performs a
division whose divisor is zero. -/
theorem c6_per_method_division_unguarded :
    (0 : ℚ) ∈ reportDivisors
      { TotalFiles := 2, SuccessCount := 0, ErrorCount := 2, TotalSizeBytes := 0
        Method := [("streaming", 1)] } 1 := by
  norm_num [reportDivisors]

/-- C6 amended: the throughput and success-rate divisions are explicitly
zero-guarded, the per-method division by the success count is not, but on
every stats value a completed run can produce (per-method counts positive
and summing to the success count) no division of the report has a zero
divisor. -/
theorem c6_no_division_by_zero_reachable (tf : Int) (jobs : List JobEnv) (dur : ℚ) :
    (0 : ℚ) ∉ reportDivisors (runPool { stats := initStats tf, audit := [] } jobs).stats dur := by
  obtain ⟨hsum, hpos⟩ := runPool_inv jobs { stats := initStats tf, audit := [] } (initStats_inv tf)
  intro hmem
  simp only [reportDivisors, List.mem_append, List.mem_map] at hmem
  rcases hmem with ((h | h) | h) | h
  · by_cases hd : dur > 0
    · rw [if_pos hd] at h
      simp only [List.mem_cons, List.not_mem_nil, or_false] at h
      rcases h with h | h | h
      · exact absurd hd (by rw [← h]; exact lt_irrefl 0)
      · norm_num at h
      · exact absurd hd (by rw [← h]; exact lt_irrefl 0)
    · rw [if_neg hd] at h
      simp at h
  · by_cases htf : (runPool { stats := initStats tf, audit := [] } jobs).stats.TotalFiles > 0
    · rw [if_pos htf] at h
      simp only [List.mem_singleton] at h
      have h0 : (runPool { stats := initStats tf, audit := [] } jobs).stats.TotalFiles = 0 := by
        exact_mod_cast h.symm
      omega
    · rw [if_neg htf] at h
      simp at h
  · norm_num at h
  · obtain ⟨p, hp, hval⟩ := h
    have h0 : (runPool { stats := initStats tf, audit := [] } jobs).stats.SuccessCount = 0 := by
      exact_mod_cast hval
    have hne : (runPool { stats := initStats tf, audit := [] } jobs).stats.Method ≠ [] := by
      intro hnil
      rw [hnil] at hp
      simp at hp
    have := methodSum_pos _ hpos hne
    omega

/-- Witness for C6 amended, on the empty run. -/
theorem c6_no_division_by_zero_reachable_witness :
    (0 : ℚ) ∉ reportDivisors (runPool { stats := initStats 0, audit := [] } []).stats 1 :=
  c6_no_division_by_zero_reachable 0 [] 1

/-- C7: a run that passes startup always reaches the report: a listing of
zero keys terminates immediately with a report of zero total, zero
success, zero error and no fatal error; and a run in which every job
fails still computes the final report from the final stats instead of
aborting. -/
theorem c7_run_always_produces_report (env : String → ObjectWorld)
    (aud : String → Bool) (dur : ℚ) (keys : List String)
    (hfail : ∀ k, jobFails (env k) = true) :
    (mainRun [Except.ok { contents := [], isTruncated := some false }] env aud dur
      = Except.ok
          { stats := initStats 0, audit := [], workerCount := 0
            report := computeReport (initStats 0) dur 0 })
    ∧ (initStats 0).TotalFiles = 0 ∧ (initStats 0).SuccessCount = 0
    ∧ (initStats 0).ErrorCount = 0
    ∧ (mainWithKeys keys env aud dur).stats.SuccessCount = 0
    ∧ (mainWithKeys keys env aud dur).stats.ErrorCount = (keys.length : Int)
    ∧ (mainWithKeys keys env aud dur).report
        = computeReport (mainWithKeys keys env aud dur).stats dur
            (mainWithKeys keys env aud dur).workerCount := by
  have hcore : (mainWithKeys keys env aud dur).stats.SuccessCount = 0
      ∧ (mainWithKeys keys env aud dur).stats.ErrorCount = (keys.length : Int) := by
    by_cases h0 : keys.length = 0
    · simp [mainWithKeys, h0, initStats]
    · have hall : ∀ j ∈ keys.map
          (fun k => ({ key := k, world := env k, auditOk := aud k } : JobEnv)),
          jobFails j.world = true := by
        intro j hj
        obtain ⟨k, _, rfl⟩ := List.mem_map.mp hj
        exact hfail k
      obtain ⟨hS, hE⟩ := runPool_all_fail _ { stats := initStats keys.length, audit := [] } hall
      simp only [List.length_map] at hE
      constructor <;>
        simp only [mainWithKeys, h0, if_false] <;>
        simp only [initStats] at hS hE ⊢ <;>
        omega
  refine ⟨rfl, rfl, rfl, rfl, hcore.1, hcore.2, ?_⟩
  by_cases h0 : keys.length = 0 <;> simp [mainWithKeys, h0]

/-- Witness for C7: a two-key run in which every job fails (copy refused,
head failing) still yields final stats of zero successes and two
errors. -/
theorem c7_run_always_produces_report_witness :
    (mainWithKeys ["a", "b"]
        (fun _ => { copyOk := false, headResult := none, getOk := true, putOk := true })
        (fun _ => true) 1).stats.SuccessCount = 0
    ∧ (mainWithKeys ["a", "b"]
        (fun _ => { copyOk := false, headResult := none, getOk := true, putOk := true })
        (fun _ => true) 1).stats.ErrorCount = 2 := by
  have h := c7_run_always_produces_report
    (fun _ => { copyOk := false, headResult := none, getOk := true, putOk := true })
    (fun _ => true) 1 ["a", "b"] (fun _ => rfl)
  exact ⟨h.2.2.2.2.1, by simpa using h.2.2.2.2.2.1⟩

/-- C8: a failed audit append changes nothing observable about the job
or the run: the stats after the job, the inserted columns, and the fact
that exactly one record is pushed are identical whether the append
succeeds or fails, and a whole run's final stats are unchanged under any
reassignment of the audit outcomes. -/
theorem c8_audit_failure_isolated (st : RunState) (j : JobEnv) (b : Bool)
    (tf : Int) (jobs : List JobEnv) :
    (workerStep st { j with auditOk := b }).stats = (workerStep st j).stats
    ∧ (workerStep st { j with auditOk := b }).audit.map stripDelivered
        = (workerStep st j).audit.map stripDelivered
    ∧ (workerStep st { j with auditOk := b }).audit.length = st.audit.length + 1
    ∧ (runPool { stats := initStats tf, audit := [] }
          (jobs.map fun j' => { j' with auditOk := b })).stats
      = (runPool { stats := initStats tf, audit := [] } jobs).stats := by
  refine ⟨workerStep_stats_world_only st st _ j rfl rfl, ?_, ?_, ?_⟩
  · cases he : (moveObject j.world st.stats).err <;>
      simp [workerStep, he, logToDB, stripDelivered]
  · exact (workerStep_counts st { j with auditOk := b }).2.1
  · exact runPool_stats_map_world jobs (fun j' => { j' with auditOk := b })
      (fun _ => rfl) _ _ rfl

/-- C9: the lister follows continuation pages until the service stops
reporting truncation, returning the concatenation of all pages' keys,
and a failing page anywhere in the followed chain aborts the run fatally
before any job is scheduled. -/
theorem c9_pagination_and_fatal_listing :
    (∀ pages : List ListPage, pages ≠ [] →
      (∀ p ∈ pages.dropLast, p.isTruncated = some true) →
      (∀ p, pages.getLast? = some p → p.isTruncated ≠ some true) →
      listKeys (pages.map Except.ok) = Except.ok (pages.map ListPage.contents).flatten)
    ∧ (∀ (pre : List ListPage) (e : String) (rest : List (Except String ListPage))
        (env : String → ObjectWorld) (aud : String → Bool) (dur : ℚ),
      (∀ p ∈ pre, p.isTruncated = some true) →
      mainRun (pre.map Except.ok ++ Except.error e :: rest) env aud dur
        = Except.error e) := by
  refine ⟨listKeys_ok_pages, ?_⟩
  intro pre e rest env aud dur h
  simp [mainRun, listKeys_error_after pre e rest h]

/-- Witness for C9: a two-page listing concatenates both pages' keys, and
an error on the first page after a truncated page aborts the run. -/
theorem c9_pagination_and_fatal_listing_witness :
    listKeys (([{ contents := ["a", "b"], isTruncated := some true },
        { contents := ["c"], isTruncated := some false }] : List ListPage).map Except.ok)
      = Except.ok (([{ contents := ["a", "b"], isTruncated := some true },
          { contents := ["c"], isTruncated := some false }] : List ListPage).map
            ListPage.contents).flatten
    ∧ mainRun (([{ contents := ["a"], isTruncated := some true }] : List ListPage).map
          Except.ok ++ Except.error "boom" :: [])
        (fun _ => { copyOk := true, headResult := none, getOk := true, putOk := true })
        (fun _ => true) 1 = Except.error "boom" := by
  constructor
  · refine c9_pagination_and_fatal_listing.1 _ (by simp) (by decide) ?_
    intro p hp
    rw [show (([{ contents := ["a", "b"], isTruncated := some true },
        { contents := ["c"], isTruncated := some false }] : List ListPage).getLast?)
      = some { contents := ["c"], isTruncated := some false } from by decide] at hp
    injection hp with hp
    rw [← hp]
    decide
  · exact c9_pagination_and_fatal_listing.2 _ _ _ _ _ _ (by decide)

/-- C10: at every quiescent point (a state reached by a whole number of
completed jobs) the per-method counts sum to the success count; the
method map is empty whenever the success count is zero, in which case the
report's per-method loop performs no iterations; each successful job
increments exactly one per-method counter and each failed job leaves the
method map untouched. -/
theorem c10_method_map_matches_successes (tf : Int) (jobs : List JobEnv)
    (dur : ℚ) (wc : Nat) :
    (methodSum (runPool { stats := initStats tf, audit := [] } jobs).stats.Method
      = (runPool { stats := initStats tf, audit := [] } jobs).stats.SuccessCount)
    ∧ ((runPool { stats := initStats tf, audit := [] } jobs).stats.SuccessCount = 0 →
        (runPool { stats := initStats tf, audit := [] } jobs).stats.Method = [])
    ∧ ((runPool { stats := initStats tf, audit := [] } jobs).stats.SuccessCount = 0 →
        (computeReport (runPool { stats := initStats tf, audit := [] } jobs).stats
          dur wc).methodLines = [])
    ∧ ∀ (w : ObjectWorld) (s : TransferStats),
        ((moveObject w s).err = none →
          methodSum (moveObject w s).stats.Method = methodSum s.Method + 1)
        ∧ ((moveObject w s).err ≠ none → (moveObject w s).stats.Method = s.Method) := by
  obtain ⟨hsum, hpos⟩ := runPool_inv jobs { stats := initStats tf, audit := [] } (initStats_inv tf)
  have hempty : (runPool { stats := initStats tf, audit := [] } jobs).stats.SuccessCount = 0 →
      (runPool { stats := initStats tf, audit := [] } jobs).stats.Method = [] := by
    intro h0
    by_contra hne
    have := methodSum_pos _ hpos hne
    omega
  refine ⟨hsum, hempty, ?_, ?_⟩
  · intro h0
    simp [computeReport, hempty h0]
  · intro w s
    constructor
    · intro he
      rcases moveObject_method w s with ⟨_, name, hm⟩ | ⟨hne, _⟩
      · rw [hm, methodSum_mapIncr]
      · exact absurd he hne
    · intro hne
      rcases moveObject_method w s with ⟨he, _⟩ | ⟨_, hm⟩
      · exact absurd he hne
      · exact hm

/-- Witness for C10, on the empty run: no successes, so the report's
per-method lines are empty. -/
theorem c10_method_map_matches_successes_witness :
    (computeReport (runPool { stats := initStats 0, audit := [] }
      ([] : List JobEnv)).stats 1 25).methodLines = [] :=
  (c10_method_map_matches_successes 0 [] 1 25).2.2.1 rfl

end S3Transfer
